import Mathlib

/-!
Shallow embedding of `brightfield2fish/data/utils.py` and proofs about it.

Numpy arrays of floats are modelled as `List ℚ` (flattened element lists) for
the discrete, exactly-computable transforms, and as `List ℝ` where the source
divides by a square root (`np.std`).  Machine floating point is idealized as
exact arithmetic.  Numpy calls that raise (`np.min`/`np.max`/`np.percentile`
on empty input, `random.randint` on an empty range) are modelled with
`Except String`.  The process-global random source consumed by
`random.randint` is modelled as an explicit stream `draws : ℕ → ℕ` of draws;
`randint a b` maps the next draw uniformly-compatibly into `[a, b]`.
-/

namespace B2F

/-! ### numpy reductions on flat element lists

`np.min` / `np.max` reduce over all elements and raise on an empty array.
`List.min?` / `List.max?` compute exactly the fold numpy performs; the
empty case is surfaced as an `Except.error`. -/

/-- np.min over all elements of an array; raises on an empty array. -/
def npMin {α : Type} [LinearOrder α] (l : List α) : Except String α :=
  match l.min? with
  | none => Except.error "zero-size array to reduction operation minimum"
  | some m => Except.ok m

/-- np.max over all elements of an array; raises on an empty array. -/
def npMax {α : Type} [LinearOrder α] (l : List α) : Except String α :=
  match l.max? with
  | none => Except.error "zero-size array to reduction operation maximum"
  | some m => Except.ok m

/-! ### Normalizer -/

/-- Embedding of `normalize_image_zero_one`:
`im = im - np.min(im); if np.max(im) > 0: im = im / np.max(im); return im`.
Generic over the ordered field so it can be instantiated at `ℚ` (exact
computation) and at `ℝ` (where `normalize` needs it next to `np.std`). -/
def normalize_image_zero_one {α : Type} [LinearOrderedField α] (im : List α) :
    Except String (List α) :=
  match npMin im with
  | Except.error e => Except.error e
  | Except.ok m =>
    let im1 := im.map (fun x => x - m)
    match npMax im1 with
    | Except.error e => Except.error e
    | Except.ok M => Except.ok (if 0 < M then im1.map (fun x => x / M) else im1)

/-- np.mean: sum of all elements divided by the element count. -/
noncomputable def npMean (l : List ℝ) : ℝ := l.sum / l.length

/-- np.std (population standard deviation, ddof = 0):
square root of the mean squared deviation from the mean. -/
noncomputable def npStd (l : List ℝ) : ℝ :=
  Real.sqrt (npMean (l.map (fun x => (x - npMean l) ^ 2)))

/-- Embedding of `normalize_image_center_scale`:
`im = im - np.mean(im); im = im / np.std(im); return im`.
The standard deviation is taken of the already-shifted array, exactly as in
the source.  There is no zero-variance guard; over this idealization the
division by a zero standard deviation is the (total) division of `ℝ`. -/
noncomputable def normalize_image_center_scale (im : List ℝ) : List ℝ :=
  let im1 := im.map (fun x => x - npMean im)
  im1.map (fun x => x / npStd im1)

/-- Embedding of `normalize`: dispatches on the `content` string,
`normalize_image_center_scale` for `"Brightfield"`, else
`normalize_image_zero_one`. -/
noncomputable def normalize (im : List ℝ) (content : String) :
    Except String (List ℝ) :=
  if content = "Brightfield" then Except.ok (normalize_image_center_scale im)
  else normalize_image_zero_one im

/-! ### numpy dtypes -/

/-- The numpy scalar dtypes that appear in the source. -/
inductive Dtype
  | float16 | float32 | float64
  | uint8 | uint16 | uint32 | uint64
  | int8 | int16 | int32 | int64
deriving DecidableEq

/-- Python `str()` of the dtype class, e.g. `str(np.uint16)`. -/
def Dtype.pyStr : Dtype → String
  | Dtype.float16 => "<class \x27numpy.float16\x27>"
  | Dtype.float32 => "<class \x27numpy.float32\x27>"
  | Dtype.float64 => "<class \x27numpy.float64\x27>"
  | Dtype.uint8 => "<class \x27numpy.uint8\x27>"
  | Dtype.uint16 => "<class \x27numpy.uint16\x27>"
  | Dtype.uint32 => "<class \x27numpy.uint32\x27>"
  | Dtype.uint64 => "<class \x27numpy.uint64\x27>"
  | Dtype.int8 => "<class \x27numpy.int8\x27>"
  | Dtype.int16 => "<class \x27numpy.int16\x27>"
  | Dtype.int32 => "<class \x27numpy.int32\x27>"
  | Dtype.int64 => "<class \x27numpy.int64\x27>"

/-- Does `needle` occur as a contiguous run at the head of `hay`? -/
def leadsWith : List Char → List Char → Bool
  | [], _ => true
  | _ :: _, [] => false
  | a :: as, b :: bs => a == b && leadsWith as bs

/-- Does `needle` occur as a contiguous run anywhere in `hay`?
Implements Python's `needle in hay` on strings (as character lists). -/
def hasSub (needle : List Char) : List Char → Bool
  | [] => leadsWith needle []
  | c :: t => leadsWith needle (c :: t) || hasSub needle t

/-- Python `"uint" in str(dtype)` — the test `prep_fish` uses to decide
whether to quantize. -/
def isUintStr (d : Dtype) : Bool :=
  hasSub ("uint".toList) (d.pyStr).toList

/-- np.iinfo(dtype).max for the integer dtypes.  (`np.iinfo` raises on
floating dtypes; every call site in the source reaches it only with an
unsigned integer dtype, and the float rows below are never consulted.) -/
def iinfoMax : Dtype → ℕ
  | Dtype.uint8 => 255
  | Dtype.uint16 => 65535
  | Dtype.uint32 => 4294967295
  | Dtype.uint64 => 18446744073709551615
  | Dtype.int8 => 127
  | Dtype.int16 => 32767
  | Dtype.int32 => 2147483647
  | Dtype.int64 => 9223372036854775807
  | _ => 0

/-! ### Quantizer -/

/-- C-style float-to-integer conversion: truncation toward zero. -/
def ctrunc (x : ℚ) : ℤ := if x < 0 then ⌈x⌉ else ⌊x⌋

/-- Value stored by `np.asarray(im, uint_dtype)` for one float element:
truncate toward zero, then reduce modulo the width of the unsigned type
(numpy converts through a signed integer and keeps the low bits, so values
at or above `iinfoMax d + 1` — and negative values — wrap). -/
def castUint (d : Dtype) (x : ℚ) : ℤ := (ctrunc x) % ((iinfoMax d : ℤ) + 1)

/-- Embedding of `float_to_uint`:
`imax = np.iinfo(uint_dtype).max + 1`; `im = im * imax`;
`im[im == imax] = imax - 1`; `im = np.asarray(im, uint_dtype)`. -/
def float_to_uint (im : List ℚ) (uint_dtype : Dtype) : List ℤ :=
  let imax : ℚ := (iinfoMax uint_dtype : ℚ) + 1
  let im1 := im.map (fun x => x * imax)
  let im2 := im1.map (fun x => if x = imax then imax - 1 else x)
  im2.map (fun x => castUint uint_dtype x)

/-! ### Buffer-level model of `float_to_uint`

The body of `float_to_uint` mixes rebinding (`im = im * imax`, which
allocates a fresh numpy buffer and repoints the local name) with in-place
mutation (`im[im == imax] = imax - 1`, which writes into the buffer the
local name currently refers to).  To settle whether the caller's array is
ever written, the buffers are made explicit: a heap is a list of buffers
and the function receives the index of the caller's buffer. -/

/-- A heap of numpy float buffers; an array reference is an index into it.
The final integer buffer stores its values embedded into `ℚ`. -/
abbrev Heap : Type := List (List ℚ)

/-- Buffer-level embedding of `float_to_uint` acting on a heap.
`im_ref` is the caller's buffer; the returned index is the buffer the
function's final `im` refers to.
Step 1 (`im = im * imax`) allocates a fresh buffer and rebinds the local
name; step 2 (`im[im == imax] = imax - 1`) mutates, in place, the buffer
the local name refers to (index `h.length`, the fresh one); step 3
(`np.asarray(im, uint_dtype)`) allocates the integer result buffer. -/
def float_to_uint_heap (h : Heap) (im_ref : ℕ) (uint_dtype : Dtype) :
    Heap × ℕ :=
  let imax : ℚ := (iinfoMax uint_dtype : ℚ) + 1
  let b1 := (List.getD h im_ref []).map (fun x => x * imax)
  let h1 : Heap := h ++ [b1]
  let r1 : ℕ := h.length
  let h2 : Heap :=
    List.set h1 r1 ((List.getD h1 r1 []).map (fun x => if x = imax then imax - 1 else x))
  let b3 := (List.getD h2 r1 []).map (fun x => ((castUint uint_dtype x : ℤ) : ℚ))
  let h3 : Heap := h2 ++ [b3]
  (h3, h2.length)

/-! ### VolumePreprocessor (`prep_fish`) -/

/-- Insert a value into an already ascending list, keeping it ascending. -/
def insertAsc (x : ℚ) : List ℚ → List ℚ
  | [] => [x]
  | y :: ys => if x ≤ y then x :: y :: ys else y :: insertAsc x ys

/-- Ascending sort of the flattened element list, as produced by the sort
numpy's percentile and median routines perform. -/
def sortAsc : List ℚ → List ℚ
  | [] => []
  | x :: xs => insertAsc x (sortAsc xs)

/-- Embedding of `np.percentile(l, q)` with the default linear
interpolation: raises when `q` is outside `[0, 100]` or the array is
empty; otherwise interpolates the sorted values at rank `q/100 * (n-1)`. -/
def npPercentile (l : List ℚ) (q : ℚ) : Except String ℚ :=
  if q < 0 ∨ 100 < q then
    Except.error "Percentiles must be in the range [0, 100]"
  else
    match l with
    | [] => Except.error "zero-size array to reduction operation"
    | x :: xs =>
      let s := sortAsc (x :: xs)
      let n := (x :: xs).length
      let pos : ℚ := q * ((n : ℚ) - 1) / 100
      let i : ℕ := (⌊pos⌋).toNat
      let a := List.getD s i 0
      let b := List.getD s (i + 1) a
      Except.ok (a + (pos - (i : ℚ)) * (b - a))

/-- Embedding of `np.median`: middle element of the sorted values for odd
length, average of the two middle elements for even length.  numpy returns
NaN (with a warning) on an empty array; NaN has no counterpart in `ℚ`, so
the empty case is an `Except.error` — `prep_fish` can only reach `np.median`
with a non-empty array (its percentile call has already succeeded). -/
def npMedian (l : List ℚ) : Except String ℚ :=
  match l with
  | [] => Except.error "median of an empty array"
  | x :: xs =>
    let s := sortAsc (x :: xs)
    let n := (x :: xs).length
    if n % 2 = 1 then Except.ok (List.getD s (n / 2) 0)
    else Except.ok ((List.getD s (n / 2 - 1) 0 + List.getD s (n / 2) 0) / 2)

/-- A 3D (Z, Y, X) numpy volume: its shape, its flattened element list,
and its dtype tag.  Casts are exact over `ℚ`, so `astype` only retags. -/
structure Arr3 where
  shape : ℕ × ℕ × ℕ
  data : List ℚ
  dtype : Dtype
deriving DecidableEq

/-- The image-accessor collaborator (`aicsimageio.AICSImage`): all
`prep_fish` requires of it is `get_image_data("ZYX", T=T, C=channel)`,
modelled as a function from the timepoint and channel to a volume. -/
structure AICSImage where
  get_image_data : ℕ → ℕ → Arr3

/-- Embedding of `prep_fish`: extract the (Z,Y,X) volume for the requested
timepoint and channel, cast it to `math_dtype`, clip to the two percentile
values, optionally subtract the median and floor negatives to zero,
normalize to `[0,1]` with `normalize_image_zero_one`, and quantize with
`float_to_uint` exactly when `"uint"` occurs in `str(out_dtype)`. -/
def prep_fish (image : AICSImage) (channel T : ℕ) (clip_percentiles : ℚ × ℚ)
    (median_subtract : Bool) (math_dtype out_dtype : Dtype) :
    Except String Arr3 :=
  let img0 := image.get_image_data T channel
  let img1 : Arr3 := ⟨img0.shape, img0.data, math_dtype⟩
  match npPercentile img1.data clip_percentiles.1 with
  | Except.error e => Except.error e
  | Except.ok lo =>
    match npPercentile img1.data clip_percentiles.2 with
    | Except.error e => Except.error e
    | Except.ok hi =>
      let img2 : Arr3 := ⟨img1.shape, img1.data.map (fun x => min (max x lo) hi), img1.dtype⟩
      let step3 : Except String Arr3 :=
        if median_subtract then
          match npMedian img2.data with
          | Except.error e => Except.error e
          | Except.ok m =>
            Except.ok ⟨img2.shape, img2.data.map (fun x => if x - m < 0 then 0 else x - m), img2.dtype⟩
        else Except.ok img2
      match step3 with
      | Except.error e => Except.error e
      | Except.ok img3 =>
        match normalize_image_zero_one img3.data with
        | Except.error e => Except.error e
        | Except.ok d4 =>
          let img4 : Arr3 := ⟨img3.shape, d4, img3.dtype⟩
          if isUintStr out_dtype then
            Except.ok ⟨img4.shape,
              (float_to_uint img4.data out_dtype).map (fun z => (Int.cast z : ℚ)),
              out_dtype⟩
          else Except.ok img4

/-! ### PairedCropper (`RandomCrop`) -/

/-- An N-dimensional numpy array: a shape and total element access by
index vector (row-major contents are irrelevant to the cropping claims,
which are about which source coordinates a crop reads). -/
structure NDArray where
  shape : List ℕ
  data : List ℕ → ℚ

/-- Embedding of `random.randint(a, b)`: raises on an empty range
(`b < a`), otherwise maps the next draw of the random stream into
`[a, b]`. -/
def randint (a b : ℤ) (draw : ℕ) : Except String ℤ :=
  if b < a then Except.error "empty range for randrange"
  else Except.ok (a + (draw : ℤ) % (b - a + 1))

/-- The list comprehension
`[random.randint(0, s - c) for s, c in zip(array.shape, crop_size)]`:
draws are consumed left to right (draw index `i`), and the first raised
`ValueError` aborts the comprehension. -/
def drawStarts (draws : ℕ → ℕ) : ℕ → List (ℕ × ℕ) → Except String (List ℤ)
  | _, [] => Except.ok []
  | i, sc :: rest =>
    match randint 0 ((sc.1 : ℤ) - (sc.2 : ℤ)) (draws i) with
    | Except.error e => Except.error e
    | Except.ok st =>
      match drawStarts draws (i + 1) rest with
      | Except.error e => Except.error e
      | Except.ok tail => Except.ok (st :: tail)

/-- The crop specification stored by a `RandomCrop` instance: one
`(start, stop)` pair per axis, `slice(s, s + c)` in the source. -/
structure RandomCrop where
  slices : List (ℤ × ℤ)
deriving DecidableEq

/-- Embedding of `RandomCrop.__init__`: draw a start per axis with
`random.randint(0, s - c)` and store `slice(s, s + c)` per axis.  Only the
shape of the reference array is consulted. -/
def RandomCrop.init (array_shape crop_size : List ℕ) (draws : ℕ → ℕ) :
    Except String RandomCrop :=
  match drawStarts draws 0 (array_shape.zip crop_size) with
  | Except.error e => Except.error e
  | Except.ok start =>
    Except.ok ⟨(start.zip crop_size).map (fun p => (p.1, p.1 + (p.2 : ℤ)))⟩

/-- numpy's basic-slicing index normalization for a bound `v` on an axis of
size `n`: negative bounds count from the end and everything is clipped into
`[0, n]`. -/
def clipIdx (v : ℤ) (n : ℕ) : ℕ :=
  if v < 0 then (max (v + (n : ℤ)) 0).toNat else min v.toNat n

/-- Embedding of `RandomCrop.crop`, i.e. `X[self.slices]` with unit-step
slices: each stored slice applies to the corresponding leading axis of `X`
(its extent is the clipped bounds' difference and its data is read at an
offset), and axes beyond the stored slices pass through whole. -/
def RandomCrop.crop (rc : RandomCrop) (X : NDArray) : NDArray :=
  let common := rc.slices.zip X.shape
  { shape :=
      common.map (fun p => clipIdx p.1.2 p.2 - clipIdx p.1.1 p.2)
        ++ X.shape.drop rc.slices.length,
    data := fun idx =>
      X.data (List.zipWith (fun p i => clipIdx p.1.1 p.2 + i) common idx
        ++ idx.drop rc.slices.length) }

/-! ### Helper lemmas: list minima and maxima over a linear order -/

theorem min?_eq_some_iff_lin {α : Type} [LinearOrder α] {l : List α} {a : α} :
    l.min? = some a ↔ a ∈ l ∧ ∀ b ∈ l, a ≤ b := by
  haveI : Std.Antisymm ((· : α) ≤ ·) := ⟨fun h h' => le_antisymm h h'⟩
  exact List.min?_eq_some_iff (fun _ => le_refl _) (fun a b => min_choice a b)
    (fun _ _ _ => le_min_iff)

theorem max?_eq_some_iff_lin {α : Type} [LinearOrder α] {l : List α} {a : α} :
    l.max? = some a ↔ a ∈ l ∧ ∀ b ∈ l, b ≤ a := by
  haveI : Std.Antisymm ((· : α) ≤ ·) := ⟨fun h h' => le_antisymm h h'⟩
  exact List.max?_eq_some_iff (fun _ => le_refl _) (fun a b => max_choice a b)
    (fun _ _ _ => max_le_iff)

theorem min?_map_mono {α β : Type} [LinearOrder α] [LinearOrder β]
    {f : α → β} (hf : Monotone f) (l : List α) :
    (l.map f).min? = (l.min?).map f := by
  cases hl : l.min? with
  | none =>
    rw [List.min?_eq_none_iff] at hl
    subst hl; rfl
  | some m =>
    rw [min?_eq_some_iff_lin] at hl
    rw [Option.map_some']
    rw [min?_eq_some_iff_lin]
    refine ⟨List.mem_map_of_mem f hl.1, ?_⟩
    intro b hb
    obtain ⟨a, ha, rfl⟩ := List.mem_map.mp hb
    exact hf (hl.2 a ha)

theorem max?_map_mono {α β : Type} [LinearOrder α] [LinearOrder β]
    {f : α → β} (hf : Monotone f) (l : List α) :
    (l.map f).max? = (l.max?).map f := by
  cases hl : l.max? with
  | none =>
    rw [List.max?_eq_none_iff] at hl
    subst hl; rfl
  | some m =>
    rw [max?_eq_some_iff_lin] at hl
    rw [Option.map_some']
    rw [max?_eq_some_iff_lin]
    refine ⟨List.mem_map_of_mem f hl.1, ?_⟩
    intro b hb
    obtain ⟨a, ha, rfl⟩ := List.mem_map.mp hb
    exact hf (hl.2 a ha)

/-! ### Specification of `normalize_image_zero_one` -/

theorem normalize_image_zero_one_spec {α : Type} [LinearOrderedField α]
    (im : List α) (h : im ≠ []) :
    ∃ r, normalize_image_zero_one im = Except.ok r ∧ r.length = im.length ∧
      ((∃ a ∈ im, ∃ b ∈ im, a ≠ b) → r.min? = some 0 ∧ r.max? = some 1) ∧
      ((∀ a ∈ im, ∀ b ∈ im, a = b) → r = List.replicate im.length 0) := by
  obtain ⟨m, hm⟩ : ∃ m, im.min? = some m := by
    cases hmin : im.min? with
    | none => exact absurd (List.min?_eq_none_iff.mp hmin) h
    | some m => exact ⟨m, rfl⟩
  obtain ⟨hm_mem, hm_le⟩ := min?_eq_some_iff_lin.mp hm
  have hsub : Monotone (fun x : α => x - m) := fun _ _ hab => sub_le_sub_right hab m
  have hmin1 : (im.map (fun x => x - m)).min? = some 0 := by
    rw [min?_map_mono hsub, hm, Option.map_some', sub_self]
  obtain ⟨M, hM⟩ : ∃ M, (im.map (fun x => x - m)).max? = some M := by
    cases hmax : (im.map (fun x => x - m)).max? with
    | none =>
      rw [List.max?_eq_none_iff, List.map_eq_nil_iff] at hmax
      exact absurd hmax h
    | some M => exact ⟨M, rfl⟩
  obtain ⟨hM_mem, hM_le⟩ := max?_eq_some_iff_lin.mp hM
  have heval : normalize_image_zero_one im =
      Except.ok (if 0 < M then (im.map (fun x => x - m)).map (fun x => x / M)
        else im.map (fun x => x - m)) := by
    simp only [normalize_image_zero_one, npMin, npMax, hm, hM]
  by_cases hMpos : 0 < M
  · refine ⟨(im.map (fun x => x - m)).map (fun x => x / M), ?_, ?_, ?_, ?_⟩
    · rw [heval, if_pos hMpos]
    · simp
    · intro _
      constructor
      · have hdiv : Monotone (fun x : α => x / M) :=
          fun _ _ hab => div_le_div_of_nonneg_right hab hMpos.le
        rw [min?_map_mono hdiv, hmin1, Option.map_some', zero_div]
      · have hdiv : Monotone (fun x : α => x / M) :=
          fun _ _ hab => div_le_div_of_nonneg_right hab hMpos.le
        rw [max?_map_mono hdiv, hM, Option.map_some', div_self (ne_of_gt hMpos)]
    · intro hconst
      exfalso
      obtain ⟨x, hx, hxM⟩ := List.mem_map.mp hM_mem
      have : x = m := hconst x hx m hm_mem
      rw [this, sub_self] at hxM
      exact absurd hxM.symm (ne_of_gt hMpos)
  · refine ⟨im.map (fun x => x - m), ?_, ?_, ?_, ?_⟩
    · rw [heval, if_neg hMpos]
    · simp
    · intro ⟨a, ha, b, hb, hab⟩
      exfalso
      obtain ⟨c, hc, hcm⟩ : ∃ c ∈ im, m < c := by
        by_cases ham : a = m
        · have hbm : b ≠ m := fun hbe => hab (by rw [ham, hbe])
          exact ⟨b, hb, lt_of_le_of_ne (hm_le b hb) (Ne.symm hbm)⟩
        · exact ⟨a, ha, lt_of_le_of_ne (hm_le a ha) (Ne.symm ham)⟩
      have h1 : c - m ∈ im.map (fun x => x - m) := List.mem_map_of_mem _ hc
      have h2 : c - m ≤ M := hM_le _ h1
      have h3 : 0 < c - m := sub_pos.mpr hcm
      exact hMpos (lt_of_lt_of_le h3 h2)
    · intro hconst
      have : ∀ y ∈ im.map (fun x => x - m), y = 0 := by
        intro y hy
        obtain ⟨x, hx, rfl⟩ := List.mem_map.mp hy
        rw [hconst x hx m hm_mem, sub_self]
      have := List.eq_replicate_of_mem this
      rwa [List.length_map] at this

/-- C4: for every non-empty array, `normalize_image_zero_one` succeeds and
preserves the element count; a non-constant input yields minimum exactly 0
and maximum exactly 1, and a constant input yields the all-zero array of
the same shape (the division is skipped because the shifted maximum is not
greater than zero). -/
theorem zero_one_min_max (im : List ℚ) (h : im ≠ []) :
    ∃ r, normalize_image_zero_one im = Except.ok r ∧ r.length = im.length ∧
      ((∃ a ∈ im, ∃ b ∈ im, a ≠ b) → r.min? = some 0 ∧ r.max? = some 1) ∧
      ((∀ a ∈ im, ∀ b ∈ im, a = b) → r = List.replicate im.length 0) :=
  normalize_image_zero_one_spec im h

/-- Witness for C4 at the concrete arrays `[1, 3]` (non-constant) and
`[2, 2]` (constant). -/
theorem zero_one_min_max_witness :
    (∃ r, normalize_image_zero_one [(1 : ℚ), 3] = Except.ok r ∧
      r.length = 2 ∧
      ((∃ a ∈ [(1 : ℚ), 3], ∃ b ∈ [(1 : ℚ), 3], a ≠ b) →
        r.min? = some 0 ∧ r.max? = some 1) ∧
      ((∀ a ∈ [(1 : ℚ), 3], ∀ b ∈ [(1 : ℚ), 3], a = b) →
        r = List.replicate 2 0)) ∧
    (∃ r, normalize_image_zero_one [(2 : ℚ), 2] = Except.ok r ∧
      r.length = 2 ∧
      ((∃ a ∈ [(2 : ℚ), 2], ∃ b ∈ [(2 : ℚ), 2], a ≠ b) →
        r.min? = some 0 ∧ r.max? = some 1) ∧
      ((∀ a ∈ [(2 : ℚ), 2], ∀ b ∈ [(2 : ℚ), 2], a = b) →
        r = List.replicate 2 0)) :=
  ⟨zero_one_min_max [1, 3] (List.cons_ne_nil 1 [3]),
   zero_one_min_max [2, 2] (List.cons_ne_nil 2 [2])⟩

/-- An array whose minimum is 0 and maximum is 1 is a fixed point of
`normalize_image_zero_one`: the subtraction removes 0 and the division
divides by 1. -/
theorem zero_one_fixed_of_min_max {r : List ℚ} (h0 : r.min? = some 0)
    (h1 : r.max? = some 1) : normalize_image_zero_one r = Except.ok r := by
  have hmap : r.map (fun x => x - (0 : ℚ)) = r := by simp
  simp only [normalize_image_zero_one, npMin, npMax, h0, hmap, h1]
  norm_num

/-- The all-zero array is a fixed point of `normalize_image_zero_one`:
its minimum is 0, the shift keeps it all zero, and the division is skipped
because the maximum is not positive. -/
theorem zero_one_fixed_replicate (n : ℕ) (hn : 0 < n) :
    normalize_image_zero_one (List.replicate n (0 : ℚ)) =
      Except.ok (List.replicate n (0 : ℚ)) := by
  have h0 : (List.replicate n (0 : ℚ)).min? = some 0 :=
    List.min?_replicate_of_pos (min_self 0) hn
  have hmap : (List.replicate n (0 : ℚ)).map (fun x => x - (0 : ℚ)) =
      List.replicate n (0 : ℚ) := by simp
  have h1 : (List.replicate n (0 : ℚ)).max? = some 0 :=
    List.max?_replicate_of_pos (max_self 0) hn
  simp only [normalize_image_zero_one, npMin, npMax, h0, hmap, h1]
  norm_num

/-- C9: `normalize_image_zero_one` is idempotent.  Composing it with
itself (propagating the empty-array error through `Except.bind`) returns
exactly the single application: a non-constant result already has minimum
0 and maximum 1, so renormalizing subtracts 0 and divides by 1, and a
constant input yields the all-zero array, which is mapped to itself. -/
theorem zero_one_idempotent (im : List ℚ) :
    Except.bind (normalize_image_zero_one im) normalize_image_zero_one =
      normalize_image_zero_one im := by
  by_cases h : im = []
  · subst h
    rfl
  · obtain ⟨r, hr, hlen, hnc, hc⟩ := normalize_image_zero_one_spec im h
    rw [hr]
    show normalize_image_zero_one r = Except.ok r
    by_cases hconst : ∀ a ∈ im, ∀ b ∈ im, a = b
    · have hrep := hc hconst
      rw [hrep]
      exact zero_one_fixed_replicate im.length (List.length_pos.mpr h)
    · push_neg at hconst
      obtain ⟨a, ha, b, hb, hab⟩ := hconst
      obtain ⟨h0, h1⟩ := hnc ⟨a, ha, b, hb, hab⟩
      exact zero_one_fixed_of_min_max h0 h1

/-! ### Quantizer claims -/

/-- C3: on arrays with all values in `[0, 1]` converted to `uint8`,
`float_to_uint` acts as `x ↦ min 255 ⌊x * 256⌋` (so no integer wrapping
ever occurs), every element of the result is between 0 and 255, and the
boundary input `[1.0]` maps to `[255]` — the value landing exactly on
`imax = 256` is clamped to 255 before the truncating cast, not kept at 256
or wrapped to 0. -/
theorem float_to_uint_range_boundary (im : List ℚ)
    (h : ∀ x ∈ im, 0 ≤ x ∧ x ≤ 1) :
    float_to_uint im Dtype.uint8 = im.map (fun x => min 255 ⌊x * 256⌋) ∧
    (∀ y ∈ float_to_uint im Dtype.uint8, 0 ≤ y ∧ y ≤ 255) ∧
    float_to_uint [1] Dtype.uint8 = [255] := by
  have hpt : ∀ x ∈ im,
      castUint Dtype.uint8
        (if x * ((iinfoMax Dtype.uint8 : ℚ) + 1) = (iinfoMax Dtype.uint8 : ℚ) + 1
          then (iinfoMax Dtype.uint8 : ℚ) + 1 - 1
          else x * ((iinfoMax Dtype.uint8 : ℚ) + 1)) = min 255 ⌊x * 256⌋ := by
    intro x hx
    obtain ⟨hx0, hx1⟩ := h x hx
    have h256 : ((iinfoMax Dtype.uint8 : ℚ) + 1) = 256 := by norm_num [iinfoMax]
    rw [h256]
    by_cases hb : x * 256 = (256 : ℚ)
    · rw [if_pos hb, hb]
      norm_num [castUint, ctrunc, iinfoMax]
    · rw [if_neg hb]
      have hz0 : (0 : ℚ) ≤ x * 256 := by positivity
      have hz1 : x * 256 < 256 :=
        lt_of_le_of_ne (by linarith) hb
      have hf0 : (0 : ℤ) ≤ ⌊x * 256⌋ := Int.floor_nonneg.mpr hz0
      have hf1 : ⌊x * 256⌋ < 256 := Int.floor_lt.mpr (by exact_mod_cast hz1)
      have hctr : ctrunc (x * 256) = ⌊x * 256⌋ := by
        rw [ctrunc, if_neg (not_lt.mpr hz0)]
      rw [castUint, hctr]
      have : ((iinfoMax Dtype.uint8 : ℤ) + 1) = 256 := by norm_num [iinfoMax]
      rw [this, Int.emod_eq_of_lt hf0 hf1, min_eq_right (by omega)]
  have hmain : float_to_uint im Dtype.uint8 = im.map (fun x => min 255 ⌊x * 256⌋) := by
    simp only [float_to_uint, List.map_map]
    exact List.map_congr_left hpt
  refine ⟨hmain, ?_, ?_⟩
  · intro y hy
    rw [hmain] at hy
    obtain ⟨x, hx, rfl⟩ := List.mem_map.mp hy
    have hx0 := (h x hx).1
    constructor
    · exact le_min (by norm_num) (Int.floor_nonneg.mpr (by positivity))
    · exact min_le_left _ _
  · norm_num [float_to_uint, castUint, ctrunc, iinfoMax]

/-- Witness for C3 at the concrete array `[0, 1/2, 1]`. -/
theorem float_to_uint_range_boundary_witness :
    float_to_uint [(0 : ℚ), 1/2, 1] Dtype.uint8 =
        [(0 : ℚ), 1/2, 1].map (fun x => min 255 ⌊x * 256⌋) ∧
      (∀ y ∈ float_to_uint [(0 : ℚ), 1/2, 1] Dtype.uint8, 0 ≤ y ∧ y ≤ 255) ∧
      float_to_uint [1] Dtype.uint8 = [255] :=
  float_to_uint_range_boundary [0, 1/2, 1] (by norm_num)

/-- C10: the buffer-level `float_to_uint` never writes the caller's
buffer: after the call the heap still holds the caller's array unchanged
at `im_ref`, the returned reference is a different buffer, and that buffer
holds exactly the value the pure `float_to_uint` computes from the
caller's array.  (The multiplication allocates a fresh buffer and the
in-place boundary clamp and the dtype cast act only on fresh buffers.) -/
theorem getD_append_left_idx {α : Type} (l l' : List α) (n : ℕ) (d : α)
    (hn : n < l.length) : (l ++ l').getD n d = l.getD n d := by
  rw [List.getD_eq_getElem?_getD, List.getElem?_append_left hn,
    List.getD_eq_getElem?_getD]

theorem getD_concat_length_idx {α : Type} (l : List α) (b d : α) :
    (l ++ [b]).getD l.length d = b := by
  rw [List.getD_eq_getElem?_getD, List.getElem?_concat_length, Option.getD_some]

theorem getD_set_ne_idx {α : Type} (l : List α) (i j : ℕ) (a d : α)
    (hij : i ≠ j) : (l.set i a).getD j d = l.getD j d := by
  rw [List.getD_eq_getElem?_getD, List.getElem?_set_ne hij,
    List.getD_eq_getElem?_getD]

theorem getD_set_self_idx {α : Type} (l : List α) (i : ℕ) (a d : α)
    (hi : i < l.length) : (l.set i a).getD i d = a := by
  rw [List.getD_eq_getElem?_getD, List.getElem?_set_self hi, Option.getD_some]

theorem float_to_uint_frame (h : Heap) (im_ref : ℕ) (d : Dtype)
    (href : im_ref < h.length) :
    ((float_to_uint_heap h im_ref d).1).getD im_ref [] = h.getD im_ref [] ∧
    (float_to_uint_heap h im_ref d).2 ≠ im_ref ∧
    ((float_to_uint_heap h im_ref d).1).getD ((float_to_uint_heap h im_ref d).2) [] =
      (float_to_uint (h.getD im_ref []) d).map (fun z => (Int.cast z : ℚ)) := by
  simp only [float_to_uint_heap]
  set b1 : List ℚ := (List.getD h im_ref []).map (fun x => x * ((iinfoMax d : ℚ) + 1))
    with hb1
  rw [getD_concat_length_idx h b1 []]
  set c1 : List ℚ := b1.map
    (fun x => if x = (iinfoMax d : ℚ) + 1 then (iinfoMax d : ℚ) + 1 - 1 else x)
    with hc1
  rw [getD_set_self_idx (h ++ [b1]) h.length c1 [] (by simp)]
  set b3 : List ℚ := c1.map (fun x => ((castUint d x : ℤ) : ℚ)) with hb3
  have hlen2 : ((h ++ [b1]).set h.length c1).length = h.length + 1 := by simp
  refine ⟨?_, ?_, ?_⟩
  · rw [getD_append_left_idx ((h ++ [b1]).set h.length c1) [b3] im_ref []
        (by rw [hlen2]; omega),
      getD_set_ne_idx (h ++ [b1]) h.length im_ref c1 [] (by omega),
      getD_append_left_idx h [b1] im_ref [] href]
  · rw [hlen2]; omega
  · rw [show ((h ++ [b1]).set h.length c1).length =
        (((h ++ [b1]).set h.length c1)).length from rfl,
      getD_concat_length_idx (((h ++ [b1]).set h.length c1)) b3 []]
    rw [hb3, hc1, hb1]
    simp [float_to_uint, List.map_map, Function.comp]

/-- Witness for C10 on a concrete two-buffer heap. -/
theorem float_to_uint_frame_witness :
    ((float_to_uint_heap [[(1 : ℚ)], [(1 : ℚ)/2]] 1 Dtype.uint8).1).getD 1 [] =
        List.getD [[(1 : ℚ)], [(1 : ℚ)/2]] 1 [] ∧
      (float_to_uint_heap [[(1 : ℚ)], [(1 : ℚ)/2]] 1 Dtype.uint8).2 ≠ 1 ∧
      ((float_to_uint_heap [[(1 : ℚ)], [(1 : ℚ)/2]] 1 Dtype.uint8).1).getD
          ((float_to_uint_heap [[(1 : ℚ)], [(1 : ℚ)/2]] 1 Dtype.uint8).2) [] =
        (float_to_uint (List.getD [[(1 : ℚ)], [(1 : ℚ)/2]] 1 []) Dtype.uint8).map
          (fun z => (Int.cast z : ℚ)) :=
  float_to_uint_frame [[(1 : ℚ)], [(1 : ℚ)/2]] 1 Dtype.uint8 (by norm_num)

/-! ### Helper lemmas: sums and means under pointwise shifts and scalings -/

theorem sum_map_sub_const (l : List ℝ) (c : ℝ) :
    (l.map (fun x => x - c)).sum = l.sum - l.length * c := by
  induction l with
  | nil => simp
  | cons x t ih => simp [ih]; ring

theorem sum_map_div_const (l : List ℝ) (c : ℝ) :
    (l.map (fun x => x / c)).sum = l.sum / c := by
  induction l with
  | nil => simp
  | cons x t ih => simp [ih, add_div]

theorem sum_nonneg_list (l : List ℝ) (h : ∀ x ∈ l, 0 ≤ x) : 0 ≤ l.sum := by
  induction l with
  | nil => simp
  | cons x t ih =>
    simp only [List.sum_cons]
    have hx := h x (List.mem_cons_self x t)
    have ht := ih (fun y hy => h y (List.mem_cons_of_mem x hy))
    linarith

theorem sum_pos_of_mem_pos (l : List ℝ) (h0 : ∀ x ∈ l, 0 ≤ x) (y : ℝ)
    (hy : y ∈ l) (hpos : 0 < y) : 0 < l.sum := by
  induction l with
  | nil => exact absurd hy (List.not_mem_nil y)
  | cons x t ih =>
    simp only [List.sum_cons]
    have ht : 0 ≤ t.sum := sum_nonneg_list t (fun z hz => h0 z (List.mem_cons_of_mem x hz))
    rcases List.mem_cons.mp hy with hyx | hyt
    · subst hyx; linarith
    · have := ih (fun z hz => h0 z (List.mem_cons_of_mem x hz)) hyt
      have hx := h0 x (List.mem_cons_self x t)
      linarith

theorem npMean_shift (l : List ℝ) (hl : l ≠ []) :
    npMean (l.map (fun x => x - npMean l)) = 0 := by
  have hn : (l.length : ℝ) ≠ 0 := by
    exact_mod_cast (List.length_pos.mpr hl).ne'
  simp only [npMean, sum_map_sub_const, List.length_map]
  field_simp

theorem sum_shift_eq_zero (l : List ℝ) (hl : l ≠ []) :
    (l.map (fun x => x - npMean l)).sum = 0 := by
  have h := npMean_shift l hl
  have hn : ((l.map (fun x => x - npMean l)).length : ℝ) ≠ 0 := by
    simp only [List.length_map]
    exact_mod_cast (List.length_pos.mpr hl).ne'
  rw [npMean, div_eq_iff hn] at h
  simpa using h

theorem npStd_shift (l : List ℝ) :
    npStd (l.map (fun x => x - npMean l)) = npStd l := by
  by_cases hl : l = []
  · subst hl
    rfl
  · have h0 := npMean_shift l hl
    simp only [npStd]
    rw [h0, List.map_map]
    congr 1
    congr 1
    exact List.map_congr_left (fun a _ => by simp [Function.comp])

/-- Core computation behind C6, for an arbitrary (opaque) zero-sum list
`sh` containing at least one nonzero element: dividing `sh` elementwise by
`npStd sh` produces a list of mean exactly 0 and standard deviation
exactly 1. -/
theorem std_of_zero_sum (sh : List ℝ) (hne : sh ≠ []) (hsum0 : sh.sum = 0)
    (c2 : ℝ) (hmem : c2 ∈ sh.map (fun y => y ^ 2)) (hpos : 0 < c2) :
    npMean (sh.map (fun y => y / npStd sh)) = 0 ∧
      npStd (sh.map (fun y => y / npStd sh)) = 1 := by
  have hlenpos : (0 : ℝ) < sh.length := by
    exact_mod_cast List.length_pos.mpr hne
  have hmean0 : npMean sh = 0 := by
    rw [npMean, hsum0, zero_div]
  set v := npMean (sh.map (fun y => y ^ 2)) with hvdef
  have hv_eq : npStd sh = Real.sqrt v := by
    rw [npStd, hmean0, hvdef]
    congr 1
    congr 1
    exact List.map_congr_left (fun a _ => by rw [sub_zero])
  have hnonneg : ∀ y ∈ sh.map (fun y => y ^ 2), 0 ≤ y := by
    intro y hy
    obtain ⟨z, _, rfl⟩ := List.mem_map.mp hy
    positivity
  have hsumpos : 0 < (sh.map (fun y => y ^ 2)).sum :=
    sum_pos_of_mem_pos _ hnonneg _ hmem hpos
  have hvpos : 0 < v := by
    rw [hvdef, npMean, List.length_map]
    exact div_pos hsumpos hlenpos
  have hmean_res : npMean (sh.map (fun y => y / npStd sh)) = 0 := by
    rw [npMean, sum_map_div_const, hsum0, zero_div, zero_div]
  refine ⟨hmean_res, ?_⟩
  rw [npStd, hmean_res]
  have hmaps : (sh.map (fun y => y / npStd sh)).map (fun x => (x - 0) ^ 2) =
      (sh.map (fun y => y ^ 2)).map (fun t => t / (npStd sh) ^ 2) := by
    rw [List.map_map, List.map_map]
    exact List.map_congr_left (fun a _ => by simp [Function.comp, div_pow])
  rw [hmaps]
  have hmv : npMean ((sh.map (fun y => y ^ 2)).map (fun t => t / (npStd sh) ^ 2)) =
      v / (npStd sh) ^ 2 := by
    rw [npMean, sum_map_div_const, List.length_map, hvdef, npMean, div_right_comm]
  rw [hmv]
  have hσ2 : (npStd sh) ^ 2 = v := by
    rw [hv_eq]
    exact Real.sq_sqrt hvpos.le
  rw [hσ2, div_self (ne_of_gt hvpos), Real.sqrt_one]

/-! ### `normalize_image_center_scale` claims -/

/-- C6: `normalize_image_center_scale` computes exactly
`(im - mean(im)) / std(im)` for every input, with no zero-variance guard —
on a constant (non-empty) array the divisor `np.std` of the shifted array
is exactly 0, so the division by zero is performed (in IEEE arithmetic it
propagates as NaN rather than raising; in this exact-arithmetic model
division by zero is the total division of `ℝ`) — and on every non-constant
array the result has mean exactly 0 and standard deviation exactly 1. -/
theorem center_scale_stats (im : List ℝ) :
    normalize_image_center_scale im =
      im.map (fun x => (x - npMean im) / npStd im) ∧
    ((∀ a ∈ im, ∀ b ∈ im, a = b) → im ≠ [] →
      npStd (im.map (fun x => x - npMean im)) = 0) ∧
    ((∃ a ∈ im, ∃ b ∈ im, a ≠ b) →
      npMean (normalize_image_center_scale im) = 0 ∧
      npStd (normalize_image_center_scale im) = 1) := by
  refine ⟨?_, ?_, ?_⟩
  · rw [normalize_image_center_scale]
    rw [npStd_shift, List.map_map]
    rfl
  · intro hconst hne
    have hmem : ∀ x ∈ im, x = npMean im := by
      intro x hx
      have hall : ∀ z ∈ im, z = x := fun z hz => hconst z hz x hx
      have hsum : im.sum = im.length • x := List.sum_eq_card_nsmul im x hall
      have hn : ((im.length : ℝ)) ≠ 0 := by
        exact_mod_cast (List.length_pos.mpr hne).ne'
      rw [npMean, hsum, nsmul_eq_mul, mul_comm, mul_div_assoc, div_self hn, mul_one]
    have hrep : im.map (fun x => x - npMean im) = List.replicate im.length (0 : ℝ) := by
      have hz : ∀ y ∈ im.map (fun x => x - npMean im), y = 0 := by
        intro y hy
        obtain ⟨x, hx, rfl⟩ := List.mem_map.mp hy
        rw [hmem x hx, sub_self]
      have := List.eq_replicate_of_mem hz
      rwa [List.length_map] at this
    rw [hrep]
    have h1 : npMean (List.replicate im.length (0 : ℝ)) = 0 := by
      simp [npMean]
    rw [npStd, h1]
    have h2 : (List.replicate im.length (0 : ℝ)).map (fun x => (x - 0) ^ 2) =
        List.replicate im.length (0 : ℝ) := by
      simp
    rw [h2, h1, Real.sqrt_zero]
  · intro hnc
    obtain ⟨a, ha, b, hb, hab⟩ := hnc
    have hne : im ≠ [] := by
      intro hempty
      subst hempty
      exact absurd ha (List.not_mem_nil a)
    have hres : normalize_image_center_scale im =
        (im.map (fun x => x - npMean im)).map
          (fun y => y / npStd (im.map (fun x => x - npMean im))) := rfl
    have hshne : im.map (fun x => x - npMean im) ≠ [] := by
      intro hmapnil
      exact hne (List.map_eq_nil_iff.mp hmapnil)
    have hsum0 := sum_shift_eq_zero im hne
    have hexists : ∃ c ∈ im, c ≠ npMean im := by
      by_contra hcon
      push_neg at hcon
      exact hab ((hcon a ha).trans (hcon b hb).symm)
    obtain ⟨c, hc, hcμ⟩ := hexists
    have hc2mem : (c - npMean im) ^ 2 ∈
        (im.map (fun x => x - npMean im)).map (fun y => y ^ 2) := by
      rw [List.map_map]
      exact List.mem_map_of_mem _ hc
    have hcpos : 0 < (c - npMean im) ^ 2 :=
      pow_two_pos_of_ne_zero (sub_ne_zero.mpr hcμ)
    obtain ⟨hm, hs⟩ := std_of_zero_sum _ hshne hsum0 _ hc2mem hcpos
    rw [hres]
    exact ⟨hm, hs⟩

/-- Witness for C6 at the concrete non-constant array `[0, 2]` (mean 1,
standard deviation 1). -/
theorem center_scale_stats_witness :
    npMean (normalize_image_center_scale [(0 : ℝ), 2]) = 0 ∧
      npStd (normalize_image_center_scale [(0 : ℝ), 2]) = 1 :=
  (center_scale_stats [0, 2]).2.2
    ⟨0, by simp, 2, by simp, by norm_num⟩

/-- C7: `normalize` dispatches to `normalize_image_center_scale` exactly
when `content = "Brightfield"`, and to `normalize_image_zero_one` for
every other content string. -/
theorem normalize_dispatch (im : List ℝ) (content : String) :
    (content = "Brightfield" →
      normalize im content = Except.ok (normalize_image_center_scale im)) ∧
    (content ≠ "Brightfield" →
      normalize im content = normalize_image_zero_one im) := by
  constructor
  · intro h
    rw [normalize, if_pos h]
  · intro h
    rw [normalize, if_neg h]

/-- Witness for C7 at `content = "Brightfield"` and `content = "FISH"`. -/
theorem normalize_dispatch_witness :
    normalize [(0 : ℝ), 2] "Brightfield" =
        Except.ok (normalize_image_center_scale [(0 : ℝ), 2]) ∧
      normalize [(0 : ℝ), 2] "FISH" = normalize_image_zero_one [(0 : ℝ), 2] :=
  ⟨(normalize_dispatch [0, 2] "Brightfield").1 rfl,
   (normalize_dispatch [0, 2] "FISH").2 (by decide)⟩

/-! ### `RandomCrop` lemmas -/

theorem randint_ok_bounds {a b : ℤ} {draw : ℕ} {st : ℤ}
    (h : randint a b draw = Except.ok st) : a ≤ st ∧ st ≤ b := by
  rw [randint] at h
  by_cases hba : b < a
  · rw [if_pos hba] at h
    exact absurd h (by simp)
  · rw [if_neg hba] at h
    have hst : st = a + (draw : ℤ) % (b - a + 1) := by
      injection h with h1
      exact h1.symm
    have hm : (0 : ℤ) < b - a + 1 := by omega
    have h1 : 0 ≤ (draw : ℤ) % (b - a + 1) := Int.emod_nonneg _ (by omega)
    have h2 : (draw : ℤ) % (b - a + 1) < b - a + 1 := Int.emod_lt_of_pos _ hm
    omega

theorem randint_err {a b : ℤ} (draw : ℕ) (h : b < a) :
    randint a b draw = Except.error "empty range for randrange" := by
  rw [randint, if_pos h]

theorem drawStarts_ok_spec (draws : ℕ → ℕ) (i0 : ℕ) (pairs : List (ℕ × ℕ))
    (starts : List ℤ) (h : drawStarts draws i0 pairs = Except.ok starts) :
    starts.length = pairs.length ∧
    ∀ j, j < pairs.length →
      0 ≤ starts.getD j 0 ∧
      starts.getD j 0 + ((pairs.getD j (0, 0)).2 : ℤ) ≤ ((pairs.getD j (0, 0)).1 : ℤ) := by
  induction pairs generalizing i0 starts with
  | nil =>
    rw [drawStarts] at h
    injection h with h1
    subst h1
    exact ⟨rfl, fun j hj => absurd hj (by simp)⟩
  | cons sc rest ih =>
    rw [drawStarts] at h
    cases hr : randint 0 ((sc.1 : ℤ) - (sc.2 : ℤ)) (draws i0) with
    | error e => rw [hr] at h; exact absurd h (by simp)
    | ok st =>
      rw [hr] at h
      cases ht : drawStarts draws (i0 + 1) rest with
      | error e => rw [ht] at h; exact absurd h (by simp)
      | ok tail =>
        rw [ht] at h
        injection h with h1
        subst h1
        obtain ⟨hst0, hst1⟩ := randint_ok_bounds hr
        obtain ⟨hlen, htail⟩ := ih (i0 + 1) tail ht
        refine ⟨by simp [hlen], ?_⟩
        intro j hj
        cases j with
        | zero =>
          simp only [List.getD_cons_zero]
          omega
        | succ k =>
          have hk : k < rest.length := by simpa using hj
          simpa using htail k hk

theorem drawStarts_err (draws : ℕ → ℕ) (i0 : ℕ) (pairs : List (ℕ × ℕ))
    (h : ∃ p ∈ pairs, p.1 < p.2) :
    ∃ e, drawStarts draws i0 pairs = Except.error e := by
  induction pairs generalizing i0 with
  | nil =>
    obtain ⟨p, hp, _⟩ := h
    exact absurd hp (List.not_mem_nil p)
  | cons sc rest ih =>
    by_cases hsc : sc.1 < sc.2
    · have hneg : ((sc.1 : ℤ) - (sc.2 : ℤ)) < 0 := by
        have : (sc.1 : ℤ) < (sc.2 : ℤ) := by exact_mod_cast hsc
        omega
      refine ⟨"empty range for randrange", ?_⟩
      rw [drawStarts, randint_err (draws i0) hneg]
    · obtain ⟨p, hp, hpp⟩ := h
      have hprest : p ∈ rest := by
        rcases List.mem_cons.mp hp with hps | hpr
        · subst hps; exact absurd hpp hsc
        · exact hpr
      obtain ⟨e, he⟩ := ih (i0 + 1) ⟨p, hprest, hpp⟩
      have hok : randint 0 ((sc.1 : ℤ) - (sc.2 : ℤ)) (draws i0) =
          Except.ok ((0 : ℤ) + (draws i0 : ℤ) % ((sc.1 : ℤ) - (sc.2 : ℤ) - 0 + 1)) := by
        rw [randint, if_neg (by omega)]
      exact ⟨e, by rw [drawStarts, hok, he]⟩

/-- C5: constructing a `RandomCrop` whose crop size exceeds the reference
shape on some axis fails with an explicit error: `random.randint(0, s - c)`
is called with an empty range `s - c < 0` and raises, so no slice tuple
derived from an invalid negative-range draw is ever stored. -/
theorem randomCrop_init_range_error (array_shape crop_size : List ℕ)
    (draws : ℕ → ℕ)
    (h : ∃ p ∈ array_shape.zip crop_size, p.1 < p.2) :
    ∃ e, RandomCrop.init array_shape crop_size draws = Except.error e := by
  obtain ⟨e, he⟩ := drawStarts_err draws 0 _ h
  exact ⟨e, by rw [RandomCrop.init, he]⟩

/-- Witness for C5: shape `(10, 20, 30)` with crop size `(11, 10, 15)`,
which exceeds the shape on the first axis. -/
theorem randomCrop_init_range_error_witness :
    ∃ e, RandomCrop.init [10, 20, 30] [11, 10, 15] (fun _ => 0) =
      Except.error e :=
  randomCrop_init_range_error [10, 20, 30] [11, 10, 15] (fun _ => 0)
    ⟨(10, 11), by decide, by decide⟩

/-- C8: every successfully constructed `RandomCrop` stores one slice per
zipped axis, and on each axis the stored slice `(start, stop)` satisfies
`0 ≤ start`, `stop = start + crop_size[axis]`, and
`start + crop_size[axis] ≤ shape[axis]`.  The structure is immutable — the
only operation, `crop`, reads `slices` and never rebuilds it — so the
invariant holds for the whole life of the instance. -/
theorem randomCrop_slices_invariant (array_shape crop_size : List ℕ)
    (draws : ℕ → ℕ) (rc : RandomCrop)
    (h : RandomCrop.init array_shape crop_size draws = Except.ok rc) :
    rc.slices.length = (array_shape.zip crop_size).length ∧
    ∀ j, j < rc.slices.length →
      0 ≤ (rc.slices.getD j (0, 0)).1 ∧
      (rc.slices.getD j (0, 0)).2 =
        (rc.slices.getD j (0, 0)).1 + (crop_size.getD j 0 : ℤ) ∧
      (rc.slices.getD j (0, 0)).1 + (crop_size.getD j 0 : ℤ) ≤
        (array_shape.getD j 0 : ℤ) := by
  rw [RandomCrop.init] at h
  cases hds : drawStarts draws 0 (array_shape.zip crop_size) with
  | error e => rw [hds] at h; exact absurd h (by simp)
  | ok starts =>
    rw [hds] at h
    injection h with h1
    obtain ⟨hlen, hbounds⟩ := drawStarts_ok_spec draws 0 _ starts hds
    have hslices : rc.slices =
        (starts.zip crop_size).map (fun p => (p.1, p.1 + (p.2 : ℤ))) := by
      rw [← h1]
    have hzip_le : (array_shape.zip crop_size).length ≤ array_shape.length ∧
        (array_shape.zip crop_size).length ≤ crop_size.length := by
      rw [List.length_zip array_shape crop_size]
      exact ⟨min_le_left _ _, min_le_right _ _⟩
    have hlen_slices : rc.slices.length = (array_shape.zip crop_size).length := by
      rw [hslices, List.length_map, List.length_zip starts crop_size, hlen]
      exact min_eq_left hzip_le.2
    refine ⟨hlen_slices, ?_⟩
    intro j hj
    have hj' : j < (array_shape.zip crop_size).length := hlen_slices ▸ hj
    have hjs : j < array_shape.length := lt_of_lt_of_le hj' hzip_le.1
    have hjc : j < crop_size.length := lt_of_lt_of_le hj' hzip_le.2
    have hjst : j < starts.length := by rw [hlen]; exact hj'
    have hjz : j < (starts.zip crop_size).length := by
      rw [List.length_zip]
      omega
    have hget : rc.slices.getD j (0, 0) =
        (starts.getD j 0, starts.getD j 0 + (crop_size.getD j 0 : ℤ)) := by
      rw [hslices]
      rw [List.getD_eq_getElem _ _ (by rw [List.length_map]; exact hjz)]
      rw [List.getElem_map, List.getElem_zip]
      rw [List.getD_eq_getElem _ _ hjst, List.getD_eq_getElem _ _ hjc]
    have hpair : (array_shape.zip crop_size).getD j (0, 0) =
        (array_shape.getD j 0, crop_size.getD j 0) := by
      rw [List.getD_eq_getElem _ _ hj', List.getElem_zip,
        List.getD_eq_getElem _ _ hjs, List.getD_eq_getElem _ _ hjc]
    obtain ⟨hb0, hb1⟩ := hbounds j hj'
    rw [hpair] at hb1
    rw [hget]
    exact ⟨hb0, rfl, by simpa using hb1⟩

/-- Witness for C8 on a concrete construction: shape `(4, 6)`, crop
`(2, 3)`, draws all 1. -/
theorem randomCrop_slices_invariant_witness :
    ∃ rc, RandomCrop.init [4, 6] [2, 3] (fun _ => 1) = Except.ok rc ∧
      (rc.slices.length = (([4, 6] : List ℕ).zip ([2, 3] : List ℕ)).length ∧
      ∀ j, j < rc.slices.length →
        0 ≤ (rc.slices.getD j (0, 0)).1 ∧
        (rc.slices.getD j (0, 0)).2 =
          (rc.slices.getD j (0, 0)).1 + ((([2, 3] : List ℕ).getD j 0 : ℕ) : ℤ) ∧
        (rc.slices.getD j (0, 0)).1 + ((([2, 3] : List ℕ).getD j 0 : ℕ) : ℤ) ≤
          ((([4, 6] : List ℕ).getD j 0 : ℕ) : ℤ)) := by
  refine ⟨⟨[(1, 3), (1, 4)]⟩, ?_, ?_⟩
  · rfl
  · exact randomCrop_slices_invariant [4, 6] [2, 3] (fun _ => 1) ⟨[(1, 3), (1, 4)]⟩
      rfl

theorem drawStarts_ok_of_valid (draws : ℕ → ℕ) (i0 : ℕ)
    (pairs : List (ℕ × ℕ)) (h : ∀ p ∈ pairs, p.2 ≤ p.1) :
    ∃ starts, drawStarts draws i0 pairs = Except.ok starts := by
  induction pairs generalizing i0 with
  | nil => exact ⟨[], rfl⟩
  | cons sc rest ih =>
    have hsc := h sc (List.mem_cons_self sc rest)
    have hok : randint 0 ((sc.1 : ℤ) - (sc.2 : ℤ)) (draws i0) =
        Except.ok (0 + (draws i0 : ℤ) % ((sc.1 : ℤ) - (sc.2 : ℤ) - 0 + 1)) := by
      rw [randint, if_neg (by omega)]
    obtain ⟨tail, htail⟩ := ih (i0 + 1) (fun p hp => h p (List.mem_cons_of_mem sc hp))
    exact ⟨_, by rw [drawStarts, hok, htail]⟩

theorem init_ok_of_valid (array_shape crop_size : List ℕ) (draws : ℕ → ℕ)
    (h : ∀ p ∈ array_shape.zip crop_size, p.2 ≤ p.1) :
    ∃ rc, RandomCrop.init array_shape crop_size draws = Except.ok rc := by
  obtain ⟨starts, hs⟩ := drawStarts_ok_of_valid draws 0 _ h
  exact ⟨_, by rw [RandomCrop.init, hs]⟩

theorem clipIdx_of_nonneg_le {v : ℤ} {n : ℕ} (h0 : 0 ≤ v) (h1 : v ≤ (n : ℤ)) :
    clipIdx v n = v.toNat := by
  rw [clipIdx, if_neg (not_lt.mpr h0)]
  exact min_eq_left (by omega)

/-- C1: a `RandomCrop` built from reference shape `(10, 20, 30)` with crop
size `(5, 10, 15)` always constructs successfully, and there is one fixed
start vector `(st0, st1, st2)` — drawn once at construction and never
re-randomized — such that for every array `X` of shape `(10, 20, 30)`,
`crop(X)` has shape `(5, 10, 15)` and reads `X` at exactly the offsets
`start + i`.  Because the same start vector serves every cropped array,
two arrays `A` and `B` of this shape are cropped at identical positions:
`crop(A)[i] = A[start + i]` and `crop(B)[i] = B[start + i]`. -/
theorem randomCrop_paired_crop (draws : ℕ → ℕ) :
    ∃ (rc : RandomCrop) (st0 st1 st2 : ℕ),
      RandomCrop.init [10, 20, 30] [5, 10, 15] draws = Except.ok rc ∧
      ∀ X : NDArray, X.shape = [10, 20, 30] →
        (rc.crop X).shape = [5, 10, 15] ∧
        ∀ i0 i1 i2 : ℕ, (rc.crop X).data [i0, i1, i2] =
          X.data [st0 + i0, st1 + i1, st2 + i2] := by
  obtain ⟨rc, hrc⟩ := init_ok_of_valid [10, 20, 30] [5, 10, 15] draws (by decide)
  obtain ⟨hlen, hbounds⟩ :=
    randomCrop_slices_invariant [10, 20, 30] [5, 10, 15] draws rc hrc
  have hlen3 : rc.slices.length = 3 := by rw [hlen]; rfl
  obtain ⟨p0, p1, p2, hsl⟩ := List.length_eq_three.mp hlen3
  obtain ⟨a0, b0⟩ := p0
  obtain ⟨a1, b1⟩ := p1
  obtain ⟨a2, b2⟩ := p2
  have h0 := hbounds 0 (by rw [hlen3]; norm_num)
  have h1 := hbounds 1 (by rw [hlen3]; norm_num)
  have h2 := hbounds 2 (by rw [hlen3]; norm_num)
  rw [hsl] at h0 h1 h2
  simp only [List.getD_cons_zero, List.getD_cons_succ] at h0 h1 h2
  obtain ⟨h0a, h0b, h0c⟩ := h0
  obtain ⟨h1a, h1b, h1c⟩ := h1
  obtain ⟨h2a, h2b, h2c⟩ := h2
  have e0a : clipIdx a0 10 = a0.toNat := clipIdx_of_nonneg_le h0a (by push_cast at h0c ⊢; omega)
  have e0b : clipIdx b0 10 = b0.toNat := clipIdx_of_nonneg_le (by omega) (by push_cast at h0b h0c ⊢; omega)
  have e1a : clipIdx a1 20 = a1.toNat := clipIdx_of_nonneg_le h1a (by push_cast at h1c ⊢; omega)
  have e1b : clipIdx b1 20 = b1.toNat := clipIdx_of_nonneg_le (by omega) (by push_cast at h1b h1c ⊢; omega)
  have e2a : clipIdx a2 30 = a2.toNat := clipIdx_of_nonneg_le h2a (by push_cast at h2c ⊢; omega)
  have e2b : clipIdx b2 30 = b2.toNat := clipIdx_of_nonneg_le (by omega) (by push_cast at h2b h2c ⊢; omega)
  refine ⟨rc, a0.toNat, a1.toNat, a2.toNat, hrc, ?_⟩
  intro X hX
  have hdropn : ∀ (l : List ℕ), l.length ≤ 3 →
      l.drop ([((a0 : ℤ), b0), (a1, b1), (a2, b2)]).length = [] := by
    intro l hl
    exact List.drop_eq_nil_of_le (by simpa using hl)
  constructor
  · simp only [RandomCrop.crop, hsl, hX, List.zip_cons_cons, List.zip_nil_right,
      List.map_cons, List.map_nil, e0a, e0b, e1a, e1b, e2a, e2b,
      hdropn [10, 20, 30] (by norm_num), List.append_nil, List.cons.injEq, and_true]
    push_cast at h0b h0c h1b h1c h2b h2c
    refine ⟨by omega, by omega, by omega⟩
  · intro i0 i1 i2
    simp only [RandomCrop.crop, hsl, hX, List.zip_cons_cons, List.zip_nil_right,
      List.zipWith_cons_cons, List.zipWith_nil_right,
      hdropn [i0, i1, i2] (by norm_num), List.append_nil, e0a, e1a, e2a]

/-- Witness for C1 with the all-zero draw stream. -/
theorem randomCrop_paired_crop_witness :
    ∃ (rc : RandomCrop) (st0 st1 st2 : ℕ),
      RandomCrop.init [10, 20, 30] [5, 10, 15] (fun _ => 0) = Except.ok rc ∧
      ∀ X : NDArray, X.shape = [10, 20, 30] →
        (rc.crop X).shape = [5, 10, 15] ∧
        ∀ i0 i1 i2 : ℕ, (rc.crop X).data [i0, i1, i2] =
          X.data [st0 + i0, st1 + i1, st2 + i2] :=
  randomCrop_paired_crop (fun _ => 0)

/-! ### `prep_fish` lemmas -/

theorem npPercentile_ok (l : List ℚ) (q : ℚ) (hne : l ≠ []) (h0 : 0 ≤ q)
    (h1 : q ≤ 100) : ∃ v, npPercentile l q = Except.ok v := by
  have hcond : ¬(q < 0 ∨ 100 < q) := by
    rw [not_or]
    exact ⟨not_lt.mpr h0, not_lt.mpr h1⟩
  cases l with
  | nil => exact absurd rfl hne
  | cons x xs => exact ⟨_, by rw [npPercentile, if_neg hcond]⟩

theorem npMedian_ok (l : List ℚ) (hne : l ≠ []) :
    ∃ m, npMedian l = Except.ok m := by
  cases l with
  | nil => exact absurd rfl hne
  | cons x xs =>
    by_cases hp : (x :: xs).length % 2 = 1
    · exact ⟨(sortAsc (x :: xs)).getD ((x :: xs).length / 2) 0,
        by simp only [npMedian, hp, if_pos]⟩
    · exact ⟨((sortAsc (x :: xs)).getD ((x :: xs).length / 2 - 1) 0 +
          (sortAsc (x :: xs)).getD ((x :: xs).length / 2) 0) / 2,
        by simp only [npMedian, hp, if_false, if_neg]⟩

theorem float_to_uint_length (im : List ℚ) (d : Dtype) :
    (float_to_uint im d).length = im.length := by
  simp [float_to_uint]

/-- C2 (amended): for every accessor, channel, timepoint, in-range clip
percentiles, `median_subtract` flag and dtypes, with a non-empty extracted
slice, `prep_fish` succeeds, preserves the (Z,Y,X) shape and element count
of the extracted channel/timepoint slice, and its output dtype is
`out_dtype` when `"uint"` occurs in `str(out_dtype)` and `math_dtype`
otherwise (the only dtype conversions performed are the initial
`astype(math_dtype)` and the conditional final quantization). -/
theorem prep_fish_shape_dtype (image : AICSImage) (channel T : ℕ)
    (clip_percentiles : ℚ × ℚ) (median_subtract : Bool)
    (math_dtype out_dtype : Dtype)
    (hne : (image.get_image_data T channel).data ≠ [])
    (hq1 : 0 ≤ clip_percentiles.1 ∧ clip_percentiles.1 ≤ 100)
    (hq2 : 0 ≤ clip_percentiles.2 ∧ clip_percentiles.2 ≤ 100) :
    ∃ r, prep_fish image channel T clip_percentiles median_subtract
        math_dtype out_dtype = Except.ok r ∧
      r.shape = (image.get_image_data T channel).shape ∧
      r.data.length = (image.get_image_data T channel).data.length ∧
      r.dtype = (if isUintStr out_dtype then out_dtype else math_dtype) := by
  obtain ⟨lo, hlo⟩ := npPercentile_ok (image.get_image_data T channel).data
    clip_percentiles.1 hne hq1.1 hq1.2
  obtain ⟨hi, hhi⟩ := npPercentile_ok (image.get_image_data T channel).data
    clip_percentiles.2 hne hq2.1 hq2.2
  have hd2ne : (image.get_image_data T channel).data.map
      (fun x => min (max x lo) hi) ≠ [] := by
    intro hc
    exact hne (List.map_eq_nil_iff.mp hc)
  cases median_subtract with
  | false =>
    obtain ⟨d4, hd4, hlen4, _, _⟩ := normalize_image_zero_one_spec
      ((image.get_image_data T channel).data.map (fun x => min (max x lo) hi)) hd2ne
    by_cases hu : isUintStr out_dtype
    · refine ⟨⟨(image.get_image_data T channel).shape,
        (float_to_uint d4 out_dtype).map (fun z => (Int.cast z : ℚ)),
        out_dtype⟩, ?_, rfl, ?_, ?_⟩
      · simp [prep_fish, hlo, hhi, hd4, hu]
      · rw [List.length_map, float_to_uint_length, hlen4, List.length_map]
      · rw [if_pos hu]
    · refine ⟨⟨(image.get_image_data T channel).shape, d4, math_dtype⟩,
        ?_, rfl, ?_, ?_⟩
      · simp [prep_fish, hlo, hhi, hd4, hu]
      · rw [hlen4, List.length_map]
      · rw [if_neg hu]
  | true =>
    obtain ⟨m, hm⟩ := npMedian_ok
      ((image.get_image_data T channel).data.map (fun x => min (max x lo) hi)) hd2ne
    have hd3ne : ((image.get_image_data T channel).data.map
        (fun x => min (max x lo) hi)).map
          (fun x => if x - m < 0 then 0 else x - m) ≠ [] := by
      intro hc
      exact hd2ne (List.map_eq_nil_iff.mp hc)
    obtain ⟨d4, hd4, hlen4, _, _⟩ := normalize_image_zero_one_spec
      (((image.get_image_data T channel).data.map
        (fun x => min (max x lo) hi)).map
          (fun x => if x - m < 0 then 0 else x - m)) hd3ne
    by_cases hu : isUintStr out_dtype
    · refine ⟨⟨(image.get_image_data T channel).shape,
        (float_to_uint d4 out_dtype).map (fun z => (Int.cast z : ℚ)),
        out_dtype⟩, ?_, rfl, ?_, ?_⟩
      · simp [prep_fish, hlo, hhi, hm, hu]
        simp only [List.map_map, sub_neg] at hd4
        rw [hd4]
      · rw [List.length_map, float_to_uint_length, hlen4, List.length_map,
          List.length_map]
      · rw [if_pos hu]
    · refine ⟨⟨(image.get_image_data T channel).shape, d4, math_dtype⟩,
        ?_, rfl, ?_, ?_⟩
      · simp [prep_fish, hlo, hhi, hm, hu]
        simp only [List.map_map, sub_neg] at hd4
        rw [hd4]
      · rw [hlen4, List.length_map, List.length_map]
      · rw [if_neg hu]

/-- A concrete one-voxel image accessor: every channel and timepoint
yields the volume of shape `(1, 1, 1)` with data `[1]` and raw dtype
`uint16`. -/
def constImage : AICSImage := ⟨fun _ _ => ⟨(1, 1, 1), [1], Dtype.uint16⟩⟩

/-- C2 counterexample: with `math_dtype = float64` and a non-uint
`out_dtype = float32`, `prep_fish` returns a `float64` array — the final
conversion to `out_dtype` happens only when `"uint"` occurs in
`str(out_dtype)`, so the output dtype does not equal the requested
`out_dtype` here. -/
theorem prep_fish_dtype_counterexample :
    prep_fish constImage 1 0 (0, 100) true Dtype.float64 Dtype.float32 =
      Except.ok ⟨(1, 1, 1), [0], Dtype.float64⟩ ∧
    Dtype.float64 ≠ Dtype.float32 := by
  constructor
  · have hlo : npPercentile [(1 : ℚ)] 0 = Except.ok 1 := by
      norm_num [npPercentile, sortAsc, insertAsc]
    have hhi : npPercentile [(1 : ℚ)] 100 = Except.ok 1 := by
      norm_num [npPercentile, sortAsc, insertAsc]
    have hm : npMedian [(1 : ℚ)] = Except.ok 1 := by
      norm_num [npMedian, sortAsc, insertAsc]
    have hz : normalize_image_zero_one [(0 : ℚ)] = Except.ok [0] := by
      have h := zero_one_fixed_replicate 1 one_pos
      simpa using h
    have hu : isUintStr Dtype.float32 = false := by decide
    simp [prep_fish, constImage, hlo, hhi, hm, hz, hu]
  · decide

/-- Witness for the amended C2 at the one-voxel image, with a uint output
dtype. -/
theorem prep_fish_shape_dtype_witness :
    ∃ r, prep_fish constImage 1 0 (0, 100) true Dtype.float64 Dtype.uint16 =
        Except.ok r ∧
      r.shape = (constImage.get_image_data 0 1).shape ∧
      r.data.length = (constImage.get_image_data 0 1).data.length ∧
      r.dtype =
        (if isUintStr Dtype.uint16 then Dtype.uint16 else Dtype.float64) :=
  prep_fish_shape_dtype constImage 1 0 (0, 100) true Dtype.float64 Dtype.uint16
    (by simp [constImage]) (by norm_num) (by norm_num)

/-- Witness for C9 at the concrete array `[1, 3]`. -/
theorem zero_one_idempotent_witness :
    Except.bind (normalize_image_zero_one [(1 : ℚ), 3])
        normalize_image_zero_one =
      normalize_image_zero_one [(1 : ℚ), 3] :=
  zero_one_idempotent [1, 3]

end B2F
